import Mathlib

/-!
Verification model of the generation-request batching pipeline of
`fms_dgt/blocks/generators/openai.py` (classes `OpenaiCompletionsLM` /
`OpenaiChatCompletionsLM`, function `oa_completion`, method
`modify_gen_kwargs`).

Python values are modelled by the inductive `PyVal`; Python dicts by
insertion-ordered association lists (`Dict`) with the usual first-match
lookup, in-place update, and key removal.  Exceptions are modelled by
`PyErr` through `Except` / the state-carrying `RunResult` (an exception in
Python leaves already-performed mutations in place, so the error
constructor carries the state reached so far).

Helpers that live in this repository but outside the sampled sources
(`generator_utils.Grouper`, `generator_utils.chunks`,
`generator_utils.retry_on_specific_exceptions`,
`LMGenerator.update_instance_with_result`) are modelled from the spec; each
such definition says so in its doc comment.
-/

set_option autoImplicit false

namespace FmsDgt

/-- A Python value as far as the pipeline inspects it: strings, integers,
`None`, lists and (insertion-ordered) dicts. -/
inductive PyVal where
| str : String → PyVal
| int : Int → PyVal
| none : PyVal
| list : List PyVal → PyVal
| dict : List (String × PyVal) → PyVal

/-- A Python dict: insertion-ordered association list with unique keys
maintained by the operations below. -/
abbrev Dict := List (String × PyVal)

/-- `d[k]` lookup: first entry with the given key. -/
def dictLookup : Dict → String → Option PyVal
| [], _ => Option.none
| (k', v) :: rest, k => if k' = k then some v else dictLookup rest k

/-- `k in d`. -/
def dictContains (d : Dict) (k : String) : Bool :=
  (dictLookup d k).isSome

/-- `d[k] = v`: update the entry in place when the key is present,
otherwise append at the end (Python dict assignment). -/
def dictInsert : Dict → String → PyVal → Dict
| [], k, v => [(k, v)]
| (k', v') :: rest, k, v =>
    if k' = k then (k', v) :: rest else (k', v') :: dictInsert rest k v

/-- `del d[k]` (no-op when the key is absent). -/
def dictErase : Dict → String → Dict
| [], _ => []
| (k', v') :: rest, k =>
    if k' = k then rest else (k', v') :: dictErase rest k

/-- `d.pop(k, default=None)`-style pop: the looked-up value (if any)
together with the dict without that key. -/
def dictPop (d : Dict) (k : String) : Option PyVal × Dict :=
  (dictLookup d k, dictErase d k)

/-- `{**a, **b}`: the keys of `a` in order, with `b`'s value where `b`
overrides, followed by the keys of `b` not in `a`, in `b`'s order. -/
def dictMerge (a b : Dict) : Dict :=
  a.map (fun kv => (kv.1, (dictLookup b kv.1).getD kv.2)) ++
    b.filter (fun kv => !(dictContains a kv.1))

/-- The keys of a dict, in order.  A value modelling an actual Python
dict has no duplicate keys (`dictKeys d` is `Nodup`); the operations
above preserve this. -/
def dictKeys (d : Dict) : List String :=
  d.map Prod.fst

mutual

/-- `str(v)` as used for group keys and error messages: a deterministic
serialization of a `PyVal`. -/
def pyStr : PyVal → String
| .str s => "\x22" ++ s ++ "\x22"
| .int n => toString n
| .none => "None"
| .list l => "[" ++ pyStrList l ++ "]"
| .dict d => "\x7b" ++ pyStrPairs d ++ "\x7d"

/-- Serialization of the elements of a Python list. -/
def pyStrList : List PyVal → String
| [] => ""
| [v] => pyStr v
| v :: rest => pyStr v ++ ", " ++ pyStrList rest

/-- Serialization of the entries of a Python dict. -/
def pyStrPairs : List (String × PyVal) → String
| [] => ""
| [(k, v)] => "\x22" ++ k ++ "\x22: " ++ pyStr v
| (k, v) :: rest => "\x22" ++ k ++ "\x22: " ++ pyStr v ++ ", " ++ pyStrPairs rest

end

/-- The exception kinds raised or propagated by the pipeline.
`valueError` models Python `ValueError` (the spec's `InvalidArgument`);
`notImplementedError` models `NotImplementedError` (the spec's
`UnsupportedOperation`); `indexError` models `IndexError`;
`openAIError` models `openai.OpenAIError`, the one retryable kind in
`oa_completion`; `otherError` stands for any other (non-retried) backend
exception; `retryFuelExhausted` is an artifact of the fuelled model of the
unbounded retry loop and corresponds to no Python exception. -/
inductive PyErr where
| valueError : String → PyErr
| notImplementedError : String → PyErr
| indexError : String → PyErr
| openAIError : PyErr
| otherError : String → PyErr
| retryFuelExhausted : PyErr
deriving DecidableEq, Repr

/-- openai.py lines 160-169: pop `stop_sequences` (when present) and
normalize it — a string becomes a one-element list, a list passes through
unchanged, anything else raises `ValueError`; when absent, `until` is
`None` and the dict is untouched.  Returns `until` paired with the
remaining kwargs. -/
def normalizeStop (kwargs : Dict) : Except PyErr (PyVal × Dict) :=
  if dictContains kwargs "stop_sequences" then
    match dictPop kwargs "stop_sequences" with
    | (some (.str s), kwargs1) => .ok (.list [.str s], kwargs1)
    | (some (.list l), kwargs1) => .ok (.list l, kwargs1)
    | (u, _) =>
        .error (.valueError
          ("Expected kwargs stop_sequences to be of type Union[str,list] but got "
            ++ pyStr (u.getD .none)))
  else .ok (.none, kwargs)

/-- openai.py lines 170-171: `kwargs["max_tokens"] = kwargs.pop("max_new_tokens")`
when the key is present. -/
def renameMaxNewTokens (d : Dict) : Dict :=
  if dictContains d "max_new_tokens" then
    match dictPop d "max_new_tokens" with
    | (v, d1) => dictInsert d1 "max_tokens" (v.getD .none)
  else d

/-- `if k in kwargs: kwargs.pop(k)` — the conditional drop used for
`min_new_tokens` and `decoding_method` (openai.py lines 172-175). -/
def condErase (d : Dict) (k : String) : Dict :=
  if dictContains d k then (dictPop d k).2 else d

/-- openai.py lines 172-177: drop `min_new_tokens` and `decoding_method`
when present, and `kwargs.pop("random_seed", None)`. -/
def dropUnsupported (d : Dict) : Dict :=
  (dictPop (condErase (condErase d "min_new_tokens") "decoding_method") "random_seed").2

/-- `OpenaiCompletionsLM.modify_gen_kwargs` (openai.py lines 155-183).
The argument is first deep-copied (`copy.deepcopy`; values are immutable
trees here, see `modify_gen_kwargs_heap` for the aliasing-aware view);
the copy is checked to be a dict (else `ValueError`), merged over the
default parameters (`{**self._base_kwargs, **kwargs}`), `stop_sequences`
is normalized into the `stop` key (always assigned, `None` when absent),
`max_new_tokens` is renamed to `max_tokens`, and `min_new_tokens`,
`decoding_method` and `random_seed` are dropped. -/
def modify_gen_kwargs (baseKwargs : Dict) : PyVal → Except PyErr Dict
| .dict g =>
    match normalizeStop (dictMerge baseKwargs g) with
    | .error e => .error e
    | .ok (untilV, kwargs1) =>
        .ok (dropUnsupported (renameMaxNewTokens (dictInsert kwargs1 "stop" untilV)))
| v =>
    .error (.valueError
      ("Expected repr(kwargs) to be of type repr(dict) but got " ++ pyStr v))

/-- A generation request (`fms_dgt.base.instance.Instance`, not under the
sampled sources): positional `args` (the first element is the prompt
payload) and keyword generation options `kwargs` (an arbitrary Python
value; `generate_batch` only ever assumes it is a dict inside
`modify_gen_kwargs`).  The mutable `result` slot is modelled separately in
`GenState`, indexed by the instance's position in the request list, so
that in-place mutation and object identity are explicit. -/
structure Instance where
  args : List PyVal
  kwargs : PyVal

/-- `requests[i]` (out-of-range indices yield a dummy; theorems only use
in-range indices produced by `List.range`). -/
def instAt (reqs : List Instance) (i : Nat) : Instance :=
  reqs.getD i ⟨[], .none⟩

/-- The result slots and write counters of the submitted instances:
`results i` is instance `i`'s `result` slot, `writes i` counts how many
times it has been assigned. -/
structure GenState where
  results : Nat → Option PyVal
  writes : Nat → Nat

/-- All result slots unset, no writes performed. -/
def initState : GenState :=
  { results := fun _ => Option.none, writes := fun _ => 0 }

/-- One assignment to instance `i`'s result slot. -/
def writeResult (st : GenState) (i : Nat) (v : PyVal) : GenState :=
  { results := fun j => if j = i then some v else st.results j
    writes := fun j => if j = i then st.writes j + 1 else st.writes j }

/-- Outcome of a stateful computation: normal return, or a propagating
exception.  The exception constructor carries the state reached so far,
because a Python exception does not roll back mutations already made. -/
inductive RunResult (σ : Type) where
| ok : σ → RunResult σ
| err : PyErr → σ → RunResult σ

/-- `true` iff the run returned normally. -/
def runIsOk {σ : Type} : RunResult σ → Bool
| .ok _ => true
| .err _ _ => false

/-- The final state of a run, whether it returned or raised. -/
def runState {σ : Type} : RunResult σ → σ
| .ok s => s
| .err _ s => s

/-- Instance `i`'s result slot after a run of the dispatcher. -/
def runResults (r : RunResult GenState) (i : Nat) : Option PyVal :=
  (runState r).results i

/-- Instance `i`'s write count after a run of the dispatcher. -/
def runWrites (r : RunResult GenState) (i : Nat) : Nat :=
  (runState r).writes i

/-- `true` iff an `Except` computation succeeded. -/
def exceptOk {ε α : Type} : Except ε α → Bool
| .ok _ => true
| .error _ => false

/-- Static configuration of the dispatcher (`self` fields of
`OpenaiCompletionsLM` used by `generate_batch`): chat vs. plain
completions, the default generation parameters `self._base_kwargs`, the
dispatcher-wide default model identifier `self.model_id_or_path`, and
`self.batch_size`. -/
structure LMConfig where
  chat : Bool
  baseKwargs : Dict
  modelIdOrPath : PyVal
  batchSize : Nat

/-- `OpenaiCompletionsLM._prepare_input` / the chat override
`OpenaiChatCompletionsLM._prepare_input` (openai.py lines 105-106 and
197-198): the identity for plain completions, a
`{"role": "user", "content": prompt}` message for chat. -/
def prepareInput (chat : Bool) (prompt : PyVal) : PyVal :=
  if chat then .dict [("role", .str "user"), ("content", prompt)] else prompt

/-- The list comprehension of openai.py line 127:
`[self._prepare_input(instance.args[0]) for instance in chunk]`, over the
chunk's instance indices.  `instance.args[0]` on empty `args` raises
`IndexError`. -/
def getInputs (chat : Bool) (reqs : List Instance) : List Nat → Except PyErr (List PyVal)
| [] => .ok []
| i :: rest =>
    match (instAt reqs i).args with
    | [] => .error (.indexError "list index out of range")
    | a :: _ =>
        match getInputs chat reqs rest with
        | .ok l => .ok (prepareInput chat a :: l)
        | .error e => .error e

/-- Payload construction of openai.py lines 131-134: set the
`"messages"`/`"prompt"` key to the prepared inputs, pop
`"model_id_or_path"` (defaulting to the dispatcher-wide model id), read
`until = kwargs.get("stop", None)`, and pass `model=model_id` alongside
the remaining kwargs to the backend call.  Returns the full backend
payload and `until`. -/
def mkPayload (chat : Bool) (selfModelId : PyVal) (kw : Dict) (inputs : List PyVal) :
    Dict × Option PyVal :=
  let kw1 := dictInsert kw (if chat then "messages" else "prompt") (.list inputs)
  match dictPop kw1 "model_id_or_path" with
  | (mid, kw2) =>
      (dictInsert kw2 "model" (mid.getD selfModelId), dictLookup kw2 "stop")

/-- Modelled from the spec: `LMGenerator.update_instance_with_result`
(not under the sampled sources) writes each backend response into the
corresponding instance's result slot, applying stop-sequence
post-processing.  The post-processing itself is a parameter
`upd until response` of the dispatcher model; the loop of openai.py lines
143-148 is the fold below over `zip(response.choices, chunk)`. -/
def scatterResults (upd : Option PyVal → PyVal → PyVal) (untilV : Option PyVal) :
    GenState → List (PyVal × Nat) → GenState
| st, [] => st
| st, (resp, i) :: rest =>
    scatterResults upd untilV (writeResult st i (upd untilV resp)) rest

/-- Modelled from the spec: `generator_utils.Grouper` (not under the
sampled sources) partitions a list into equivalence classes by a key
function, preserving relative order within each group, with groups
ordered by first occurrence.  `insertGrouped` files one element under its
key. -/
def insertGrouped {α : Type} : List (String × List α) → String → α → List (String × List α)
| [], k, x => [(k, [x])]
| (k', ys) :: rest, k, x =>
    if k' = k then (k', ys ++ [x]) :: rest else (k', ys) :: insertGrouped rest k x

/-- Modelled from the spec: `Grouper.get_grouped` — the ordered
key-to-sublist mapping obtained by filing each element in turn. -/
def getGrouped {α : Type} (key : α → String) (xs : List α) : List (String × List α) :=
  xs.foldl (fun acc x => insertGrouped acc (key x) x) []

/-- Fuelled worker for `chunksOf` (each step consumes at least one
element, so fuel equal to the input length suffices; the fuel only makes
the recursion structural). -/
def chunksOfFuel {α : Type} (n : Nat) : Nat → List α → List (List α)
| _, [] => []
| 0, _ :: _ => []
| fuel + 1, x :: xs => (x :: xs.take (n - 1)) :: chunksOfFuel n fuel (xs.drop (n - 1))

/-- Modelled from the spec: `generator_utils.chunks` (not under the
sampled sources) splits a list into consecutive chunks of size at most
`n`, the last possibly shorter, concatenating back to the input.  The
spec's `InvalidArgument` failure for `n <= 0` is not modelled; theorems
assume `1 <= n` as `generate_batch` guarantees (`batch_size` defaults
to 1). -/
def chunksOf {α : Type} (n : Nat) (xs : List α) : List (List α) :=
  chunksOfFuel n xs.length xs

/-- The body of the inner `for chunk in chunks:` loop of
`OpenaiCompletionsLM.generate_batch` (openai.py lines 126-148), for one
chunk of instance indices: build the inputs, take the first instance's
kwargs (`next(iter(chunk)).kwargs` — all kwargs in a chunk are identical),
run `modify_gen_kwargs`, build the payload, invoke the backend (the
`oa_completion`-wrapped call, which either returns the ordered choice list
or raises a non-retried exception), and zip the choices against the chunk
to scatter results.  Any exception propagates with the state unchanged;
writes happen only after the backend call returns. -/
def processChunk (cfg : LMConfig) (backend : Dict → Except PyErr (List PyVal))
    (upd : Option PyVal → PyVal → PyVal) (reqs : List Instance)
    (st : GenState) (chunk : List Nat) : RunResult GenState :=
  match getInputs cfg.chat reqs chunk with
  | .error e => .err e st
  | .ok inputs =>
      match chunk with
      | [] => .err (.otherError "StopIteration") st
      | i0 :: _ =>
          match modify_gen_kwargs cfg.baseKwargs (instAt reqs i0).kwargs with
          | .error e => .err e st
          | .ok kw =>
              match backend (mkPayload cfg.chat cfg.modelIdOrPath kw inputs).1 with
              | .error e => .err e st
              | .ok choices =>
                  .ok (scatterResults upd (mkPayload cfg.chat cfg.modelIdOrPath kw inputs).2
                    st (choices.zip chunk))

/-- Sequential processing of a list of chunks (the inner loop of
openai.py lines 126-148), stopping at the first propagating exception. -/
def processChunks (cfg : LMConfig) (backend : Dict → Except PyErr (List PyVal))
    (upd : Option PyVal → PyVal → PyVal) (reqs : List Instance) :
    GenState → List (List Nat) → RunResult GenState
| st, [] => .ok st
| st, c :: cs =>
    match processChunk cfg backend upd reqs st c with
    | .ok st' => processChunks cfg backend upd reqs st' cs
    | .err e st' => .err e st'

/-- Sequential processing of the groups (the outer loop of openai.py
lines 121-124): each group's index list is split into chunks of at most
`cfg.batchSize` indices and processed in order. -/
def processGroups (cfg : LMConfig) (backend : Dict → Except PyErr (List PyVal))
    (upd : Option PyVal → PyVal → PyVal) (reqs : List Instance) :
    GenState → List (String × List Nat) → RunResult GenState
| st, [] => .ok st
| st, (_, g) :: gs =>
    match processChunks cfg backend upd reqs st (chunksOf cfg.batchSize g) with
    | .ok st' => processGroups cfg backend upd reqs st' gs
    | .err e st' => .err e st'

/-- The group key of openai.py line 115: `lambda x: str(x.kwargs)`,
applied to the instance at index `i`. -/
def groupKey (reqs : List Instance) (i : Nat) : String :=
  pyStr (instAt reqs i).kwargs

/-- The grouping of openai.py line 115, over instance indices: the
requests are identified by their positions `0 .. reqs.length - 1`. -/
def groupedIdxs (reqs : List Instance) : List (String × List Nat) :=
  getGrouped (groupKey reqs) (List.range reqs.length)

/-- All chunks the dispatcher processes, in processing order: each
group's index list split into chunks of at most `bs`. -/
def allChunks (bs : Nat) (reqs : List Instance) : List (List Nat) :=
  (groupedIdxs reqs).flatMap (fun g => chunksOf bs g.2)

/-- `OpenaiCompletionsLM.generate_batch` (openai.py lines 111-150):
group the requests by `str(kwargs)`, chunk each group by `batch_size`,
and process the chunks sequentially, scattering results in place.  The
`backend` argument is the `oa_completion`-wrapped client call (it either
returns the ordered choice list or raises a non-retried exception); `upd`
is the stop-sequence post-processing applied by
`update_instance_with_result`.  The progress bar is not modelled. -/
def generate_batch (cfg : LMConfig) (backend : Dict → Except PyErr (List PyVal))
    (upd : Option PyVal → PyVal → PyVal) (reqs : List Instance) : RunResult GenState :=
  processGroups cfg backend upd reqs initState (groupedIdxs reqs)

/-- The number of leading chunks that completed successfully before the
first propagating exception (all of them, for a successful run):
a replay of `processChunks` that counts successes. -/
def completedCount (cfg : LMConfig) (backend : Dict → Except PyErr (List PyVal))
    (upd : Option PyVal → PyVal → PyVal) (reqs : List Instance) :
    GenState → List (List Nat) → Nat
| _, [] => 0
| st, c :: cs =>
    match processChunk cfg backend upd reqs st c with
    | .ok st' => completedCount cfg backend upd reqs st' cs + 1
    | .err _ _ => 0

/-- The length of the prompt (or chat message) list carried by a backend
payload. -/
def payloadPromptLen (chat : Bool) (payload : Dict) : Nat :=
  match dictLookup payload (if chat then "messages" else "prompt") with
  | some (.list l) => l.length
  | _ => 0

/-- `true` exactly on `openai.OpenAIError`, the single retryable
exception kind configured by `oa_completion` (openai.py line 58). -/
def isOpenAIError : PyErr → Bool
| .openAIError => true
| _ => false

/-- Modelled from the spec:
`generator_utils.retry_on_specific_exceptions` (not under the sampled
sources), specialised to what the claims observe.  `f` is the wrapped
zero-argument callable, given the attempt number; `onExc` classifies
retryable exceptions.  On a retryable failure the on-exception callback
runs, one backoff sleep happens, and the call retries; a non-retryable
failure propagates immediately.  The result also reports how many backoff
sleeps and how many callback invocations occurred.  `fuel` bounds the
modelled number of attempts (the source retries forever when
`max_retries=None`); exhausted fuel yields the artificial
`retryFuelExhausted`. -/
def retryLoop {α : Type} (onExc : PyErr → Bool) (f : Nat → Except PyErr α) :
    Nat → Nat → Except PyErr α × Nat × Nat
| _, 0 => (.error .retryFuelExhausted, 0, 0)
| attempt, fuel + 1 =>
    match f attempt with
    | .ok a => (.ok a, 0, 0)
    | .error e =>
        if onExc e then
          match retryLoop onExc f (attempt + 1) fuel with
          | (r, s, c) => (r, s + 1, c + 1)
        else (.error e, 0, 0)

/-- `oa_completion` (openai.py lines 37-68): the client call wrapped by
`retry_on_specific_exceptions(on_exceptions=[openai.OpenAIError],
max_retries=None, on_exception_callback=...)`.  `completionCall` is the
inner `completion()` closure, given the attempt number. -/
def oa_completion {α : Type} (completionCall : Nat → Except PyErr α) (fuel : Nat) :
    Except PyErr α × Nat × Nat :=
  retryLoop isOpenAIError completionCall 0 fuel

/-- `OpenaiCompletionsLM.loglikelihood_batch` (openai.py lines 152-153)
and the identical `OpenaiChatCompletionsLM.loglikelihood_batch` (lines
206-207): `raise NotImplementedError("No support for logits.")`.  The
client is in scope (`self.client`) but never invoked. -/
def loglikelihood_batch (_client : Dict → Except PyErr (List PyVal))
    (_args : List PyVal) (_kwargs : Dict) : Except PyErr Unit :=
  .error (.notImplementedError "No support for logits.")

/-- The option names `modify_gen_kwargs` treats specially: popped,
renamed, overwritten or dropped rather than passed through from the
merged kwargs. -/
def translatedKeys : List String :=
  ["stop_sequences", "stop", "max_new_tokens", "max_tokens",
   "min_new_tokens", "decoding_method", "random_seed"]

/-- `true` iff `modify_gen_kwargs` returns normally on this input. -/
def modifyOk (baseKwargs : Dict) (gen_kwargs : PyVal) : Bool :=
  exceptOk (modify_gen_kwargs baseKwargs gen_kwargs)

/-- The dict returned by `modify_gen_kwargs` (junk `[]` on error; used
only under a success hypothesis). -/
def modifyDict (baseKwargs : Dict) (gen_kwargs : PyVal) : Dict :=
  match modify_gen_kwargs baseKwargs gen_kwargs with
  | .ok d => d
  | .error _ => []

/-- `modify_gen_kwargs` against an explicit heap of Python objects, to
make the `copy.deepcopy(gen_kwargs)` of openai.py line 157 observable:
cell `r` holds the argument; the call allocates a fresh cell holding a
deep copy and mutates only that cell, returning its reference on
success. -/
def modify_gen_kwargs_heap (baseKwargs : Dict) (heap : List PyVal) (r : Nat) :
    Except PyErr Nat × List PyVal :=
  let g := heap.getD r .none
  let newRef := heap.length
  let heap1 := heap ++ [g]
  match modify_gen_kwargs baseKwargs g with
  | .ok d => (.ok newRef, heap1.set newRef (.dict d))
  | .error e => (.error e, heap1)

/-! ### Dictionary lemmas -/

theorem dictLookup_insert_self (d : Dict) (k : String) (v : PyVal) :
    dictLookup (dictInsert d k v) k = some v := by
  induction d with
  | nil => simp [dictInsert, dictLookup]
  | cons kv rest ih =>
      obtain ⟨k', v'⟩ := kv
      by_cases h : k' = k
      · subst h
        simp [dictInsert, dictLookup]
      · simp [dictInsert, dictLookup, h, ih]

theorem dictLookup_insert_ne (d : Dict) (k k' : String) (v : PyVal) (h : k' ≠ k) :
    dictLookup (dictInsert d k' v) k = dictLookup d k := by
  induction d with
  | nil => simp [dictInsert, dictLookup, h]
  | cons kv rest ih =>
      obtain ⟨k0, v0⟩ := kv
      by_cases h0 : k0 = k'
      · subst h0
        simp [dictInsert, dictLookup, h]
      · simp only [dictInsert, if_neg h0, dictLookup]
        by_cases hk : k0 = k
        · simp [hk]
        · simp [hk, ih]

theorem dictLookup_erase_ne (d : Dict) (k k' : String) (h : k' ≠ k) :
    dictLookup (dictErase d k') k = dictLookup d k := by
  induction d with
  | nil => simp [dictErase]
  | cons kv rest ih =>
      obtain ⟨k0, v0⟩ := kv
      by_cases h0 : k0 = k'
      · subst h0
        simp [dictErase, dictLookup, h]
      · simp only [dictErase, if_neg h0, dictLookup]
        by_cases hk : k0 = k
        · simp [hk]
        · simp [hk, ih]

theorem dictLookup_none_iff (d : Dict) (k : String) :
    dictLookup d k = Option.none ↔ k ∉ dictKeys d := by
  induction d with
  | nil => simp [dictLookup, dictKeys]
  | cons kv rest ih =>
      obtain ⟨k0, v0⟩ := kv
      by_cases hk : k0 = k
      · subst hk
        simp [dictLookup, dictKeys]
      · simp [dictLookup, dictKeys, hk, ih, Ne.symm hk]

theorem dictErase_of_lookup_none (d : Dict) (k : String)
    (h : dictLookup d k = Option.none) : dictErase d k = d := by
  induction d with
  | nil => simp [dictErase]
  | cons kv rest ih =>
      obtain ⟨k0, v0⟩ := kv
      by_cases hk : k0 = k
      · subst hk
        simp [dictLookup] at h
      · simp only [dictLookup, if_neg hk] at h
        simp [dictErase, hk, ih h]

theorem dictLookup_erase_self (d : Dict) (k : String) (hnd : (dictKeys d).Nodup) :
    dictLookup (dictErase d k) k = Option.none := by
  induction d with
  | nil => simp [dictErase, dictLookup]
  | cons kv rest ih =>
      obtain ⟨k0, v0⟩ := kv
      simp only [dictKeys, List.map_cons, List.nodup_cons] at hnd
      by_cases hk : k0 = k
      · subst hk
        simp only [dictErase, if_pos rfl]
        exact (dictLookup_none_iff rest k0).2 hnd.1
      · simp only [dictErase, if_neg hk, dictLookup, if_neg hk]
        exact ih hnd.2

theorem mem_dictKeys_insert (d : Dict) (k a : String) (v : PyVal)
    (h : a ∈ dictKeys (dictInsert d k v)) : a ∈ dictKeys d ∨ a = k := by
  induction d with
  | nil =>
      simp [dictInsert, dictKeys] at h
      exact Or.inr h
  | cons kv rest ih =>
      obtain ⟨k0, v0⟩ := kv
      by_cases hk : k0 = k
      · subst hk
        simp [dictInsert, dictKeys] at h ⊢
        tauto
      · simp only [dictInsert, if_neg hk, dictKeys, List.map_cons, List.mem_cons] at h
        rcases h with h | h
        · exact Or.inl (by simp [dictKeys, h])
        · rcases ih h with h' | h'
          · exact Or.inl (by simp [dictKeys] at h' ⊢; tauto)
          · exact Or.inr h'

theorem dictKeys_nodup_insert (d : Dict) (k : String) (v : PyVal)
    (h : (dictKeys d).Nodup) : (dictKeys (dictInsert d k v)).Nodup := by
  induction d with
  | nil => simp [dictInsert, dictKeys]
  | cons kv rest ih =>
      obtain ⟨k0, v0⟩ := kv
      simp only [dictKeys, List.map_cons, List.nodup_cons] at h
      by_cases hk : k0 = k
      · subst hk
        rw [show dictInsert ((k0, v0) :: rest) k0 v = (k0, v) :: rest from by
          simp [dictInsert]]
        simp only [dictKeys, List.map_cons, List.nodup_cons]
        exact ⟨h.1, h.2⟩
      · simp only [dictInsert, if_neg hk, dictKeys, List.map_cons, List.nodup_cons]
        refine ⟨fun hmem => ?_, ih h.2⟩
        rcases mem_dictKeys_insert rest k k0 v hmem with h' | h'
        · exact h.1 h'
        · exact hk h'

theorem mem_dictKeys_erase (d : Dict) (k a : String)
    (h : a ∈ dictKeys (dictErase d k)) : a ∈ dictKeys d := by
  induction d with
  | nil => simpa [dictErase] using h
  | cons kv rest ih =>
      obtain ⟨k0, v0⟩ := kv
      by_cases hk : k0 = k
      · subst hk
        rw [show dictErase ((k0, v0) :: rest) k0 = rest from by simp [dictErase]] at h
        simp [dictKeys] at h ⊢
        tauto
      · simp only [dictErase, if_neg hk, dictKeys, List.map_cons, List.mem_cons] at h
        rcases h with h | h
        · simp [dictKeys, h]
        · simp only [dictKeys, List.map_cons, List.mem_cons]
          exact Or.inr (ih h)

theorem dictKeys_nodup_erase (d : Dict) (k : String)
    (h : (dictKeys d).Nodup) : (dictKeys (dictErase d k)).Nodup := by
  induction d with
  | nil => simp [dictErase, dictKeys]
  | cons kv rest ih =>
      obtain ⟨k0, v0⟩ := kv
      simp only [dictKeys, List.map_cons, List.nodup_cons] at h
      by_cases hk : k0 = k
      · subst hk
        simpa [dictErase, dictKeys] using h.2
      · simp only [dictErase, if_neg hk, dictKeys, List.map_cons, List.nodup_cons]
        exact ⟨fun hmem => h.1 (mem_dictKeys_erase rest k k0 hmem), ih h.2⟩

theorem dictLookup_append_some (xs ys : Dict) (k : String) (v : PyVal)
    (h : dictLookup xs k = some v) : dictLookup (xs ++ ys) k = some v := by
  induction xs with
  | nil => simp [dictLookup] at h
  | cons kv rest ih =>
      obtain ⟨k0, v0⟩ := kv
      by_cases hk : k0 = k
      · subst hk
        simp [dictLookup] at h
        simp [dictLookup, h]
      · simp only [dictLookup, if_neg hk] at h
        simp only [List.cons_append, dictLookup, if_neg hk]
        exact ih h

theorem dictLookup_append_none (xs ys : Dict) (k : String)
    (h : dictLookup xs k = Option.none) : dictLookup (xs ++ ys) k = dictLookup ys k := by
  induction xs with
  | nil => simp
  | cons kv rest ih =>
      obtain ⟨k0, v0⟩ := kv
      by_cases hk : k0 = k
      · subst hk
        simp [dictLookup] at h
      · simp only [dictLookup, if_neg hk] at h
        simp only [List.cons_append, dictLookup, if_neg hk]
        exact ih h

theorem dictLookup_mergeFst (a b : Dict) (k : String) :
    dictLookup (a.map (fun kv => (kv.1, (dictLookup b kv.1).getD kv.2))) k =
      (dictLookup a k).map (fun v => (dictLookup b k).getD v) := by
  induction a with
  | nil => simp [dictLookup]
  | cons kv rest ih =>
      obtain ⟨k0, v0⟩ := kv
      by_cases hk : k0 = k
      · subst hk
        simp [dictLookup]
      · simp only [List.map_cons, dictLookup, if_neg hk]
        exact ih

theorem dictLookup_filter (d : Dict) (p : String × PyVal → Bool) (k : String)
    (hp : ∀ v, p (k, v) = true) : dictLookup (d.filter p) k = dictLookup d k := by
  induction d with
  | nil => simp [dictLookup]
  | cons kv rest ih =>
      obtain ⟨k0, v0⟩ := kv
      by_cases hk : k0 = k
      · subst hk
        rw [show List.filter p ((k0, v0) :: rest) = (k0, v0) :: List.filter p rest from by
          simp [List.filter_cons, hp v0]]
        simp [dictLookup]
      · rcases hpv : p (k0, v0) with _ | _
        · rw [show List.filter p ((k0, v0) :: rest) = List.filter p rest from by
            simp [List.filter_cons, hpv]]
          simp only [dictLookup, if_neg hk]
          exact ih
        · rw [show List.filter p ((k0, v0) :: rest) = (k0, v0) :: List.filter p rest from by
            simp [List.filter_cons, hpv]]
          simp only [dictLookup, if_neg hk]
          exact ih

theorem dictMerge_lookup_right (a b : Dict) (k : String) (v : PyVal)
    (h : dictLookup b k = some v) : dictLookup (dictMerge a b) k = some v := by
  unfold dictMerge
  rcases ha : dictLookup a k with _ | w
  · rw [dictLookup_append_none]
    · rw [dictLookup_filter]
      · exact h
      · intro v'
        simp [dictContains, ha]
    · rw [dictLookup_mergeFst, ha]
      rfl
  · rw [dictLookup_append_some]
    rw [dictLookup_mergeFst, ha]
    simp [h]

theorem dictMerge_lookup_left (a b : Dict) (k : String)
    (h : dictLookup b k = Option.none) : dictLookup (dictMerge a b) k = dictLookup a k := by
  unfold dictMerge
  rcases ha : dictLookup a k with _ | w
  · rw [dictLookup_append_none]
    · rw [dictLookup_filter]
      · exact h
      · intro v'
        simp [dictContains, ha]
    · rw [dictLookup_mergeFst, ha]
      rfl
  · rw [dictLookup_append_some]
    rw [dictLookup_mergeFst, ha]
    simp [h]

theorem dictKeys_mergeFst (a b : Dict) :
    dictKeys (a.map (fun kv => (kv.1, (dictLookup b kv.1).getD kv.2))) = dictKeys a := by
  induction a with
  | nil => rfl
  | cons kv rest ih =>
      obtain ⟨k0, v0⟩ := kv
      simp only [List.map_cons, dictKeys] at ih ⊢
      rw [ih]

theorem mem_dictKeys_iff (d : Dict) (k : String) :
    k ∈ dictKeys d ↔ ∃ v, (k, v) ∈ d := by
  constructor
  · intro h
    rcases List.mem_map.1 h with ⟨⟨k', v⟩, hm, hk⟩
    exact ⟨v, by rwa [show k' = k from hk] at hm⟩
  · rintro ⟨v, hm⟩
    exact List.mem_map.2 ⟨(k, v), hm, rfl⟩

theorem dictKeys_merge_nodup (a b : Dict)
    (ha : (dictKeys a).Nodup) (hb : (dictKeys b).Nodup) :
    (dictKeys (dictMerge a b)).Nodup := by
  unfold dictMerge
  rw [show dictKeys
        (a.map (fun kv => (kv.1, (dictLookup b kv.1).getD kv.2)) ++
          b.filter (fun kv => !(dictContains a kv.1))) =
      dictKeys (a.map (fun kv => (kv.1, (dictLookup b kv.1).getD kv.2))) ++
        dictKeys (b.filter (fun kv => !(dictContains a kv.1))) from by
    simp [dictKeys]]
  rw [dictKeys_mergeFst a b]
  rw [List.nodup_append]
  refine ⟨ha, ?_, ?_⟩
  · exact ((b.filter_sublist).map Prod.fst).nodup hb
  · intro x hx hx'
    rcases (mem_dictKeys_iff _ x).1 hx' with ⟨v, hm⟩
    have hpv := List.of_mem_filter hm
    have hfalse : dictContains a x = false := by
      simpa using hpv
    have hnone : dictLookup a x = Option.none := by
      rcases hl : dictLookup a x with _ | v'
      · rfl
      · simp [dictContains, hl] at hfalse
    exact (dictLookup_none_iff a x).1 hnone hx

/-! ### Lemmas about the steps of `modify_gen_kwargs` -/

theorem normalizeStop_of_str (d : Dict) (s : String)
    (h : dictLookup d "stop_sequences" = some (.str s)) :
    normalizeStop d = .ok (.list [.str s], dictErase d "stop_sequences") := by
  unfold normalizeStop
  simp [dictContains, dictPop, h]

theorem normalizeStop_of_list (d : Dict) (l : List PyVal)
    (h : dictLookup d "stop_sequences" = some (.list l)) :
    normalizeStop d = .ok (.list l, dictErase d "stop_sequences") := by
  unfold normalizeStop
  simp [dictContains, dictPop, h]

theorem normalizeStop_of_absent (d : Dict)
    (h : dictLookup d "stop_sequences" = Option.none) :
    normalizeStop d = .ok (.none, d) := by
  unfold normalizeStop
  simp [dictContains, dictPop, h]

theorem normalizeStop_of_other (d : Dict) (v : PyVal)
    (h : dictLookup d "stop_sequences" = some v)
    (hs : ∀ s, v ≠ .str s) (hl : ∀ l, v ≠ .list l) :
    normalizeStop d = .error (.valueError
      ("Expected kwargs stop_sequences to be of type Union[str,list] but got "
        ++ pyStr v)) := by
  unfold normalizeStop
  rcases v with s | n | _ | l | pairs
  · exact absurd rfl (hs s)
  · simp [dictContains, dictPop, h]
  · simp [dictContains, dictPop, h]
  · exact absurd rfl (hl l)
  · simp [dictContains, dictPop, h]

theorem normalizeStop_lookup_ne (d : Dict) (u : PyVal) (k1 : Dict) (k : String)
    (hok : normalizeStop d = .ok (u, k1)) (hk : k ≠ "stop_sequences") :
    dictLookup k1 k = dictLookup d k := by
  unfold normalizeStop at hok
  rcases hss : dictLookup d "stop_sequences" with _ | v
  · simp [dictContains, hss] at hok
    rw [hok.2]
  · rcases v with s | n | _ | l | pairs <;>
      simp [dictContains, dictPop, hss] at hok
    · rw [← hok.2]
      exact dictLookup_erase_ne d k "stop_sequences" (Ne.symm hk)
    · rw [← hok.2]
      exact dictLookup_erase_ne d k "stop_sequences" (Ne.symm hk)

theorem normalizeStop_keys_nodup (d : Dict) (u : PyVal) (k1 : Dict)
    (hok : normalizeStop d = .ok (u, k1)) (hnd : (dictKeys d).Nodup) :
    (dictKeys k1).Nodup := by
  unfold normalizeStop at hok
  rcases hss : dictLookup d "stop_sequences" with _ | v
  · simp [dictContains, hss] at hok
    rw [hok.2] at hnd
    exact hnd
  · rcases v with s | n | _ | l | pairs <;>
      simp [dictContains, dictPop, hss] at hok
    · rw [← hok.2]
      exact dictKeys_nodup_erase d "stop_sequences" hnd
    · rw [← hok.2]
      exact dictKeys_nodup_erase d "stop_sequences" hnd

theorem renameMaxNewTokens_lookup_ne (d : Dict) (k : String)
    (h1 : k ≠ "max_new_tokens") (h2 : k ≠ "max_tokens") :
    dictLookup (renameMaxNewTokens d) k = dictLookup d k := by
  unfold renameMaxNewTokens
  by_cases hc : dictContains d "max_new_tokens"
  · simp only [hc, if_true, dictPop]
    rw [dictLookup_insert_ne _ _ _ _ (Ne.symm h2)]
    exact dictLookup_erase_ne d k "max_new_tokens" (Ne.symm h1)
  · simp [hc]

theorem renameMaxNewTokens_lookup_maxTokens (d : Dict) (v : PyVal)
    (h : dictLookup d "max_new_tokens" = some v) :
    dictLookup (renameMaxNewTokens d) "max_tokens" = some v := by
  unfold renameMaxNewTokens
  have hc : dictContains d "max_new_tokens" = true := by simp [dictContains, h]
  simp only [hc, if_true, dictPop, h]
  simp [dictLookup_insert_self]

theorem renameMaxNewTokens_lookup_mnt_none (d : Dict)
    (hnd : (dictKeys d).Nodup) :
    dictLookup (renameMaxNewTokens d) "max_new_tokens" = Option.none := by
  unfold renameMaxNewTokens
  by_cases hc : dictContains d "max_new_tokens"
  · simp only [hc, if_true, dictPop]
    rw [dictLookup_insert_ne _ _ _ _ (by decide)]
    exact dictLookup_erase_self d "max_new_tokens" hnd
  · rcases hl : dictLookup d "max_new_tokens" with _ | v
    · simp [hc, hl]
    · simp [dictContains, hl] at hc

theorem renameMaxNewTokens_keys_nodup (d : Dict)
    (hnd : (dictKeys d).Nodup) : (dictKeys (renameMaxNewTokens d)).Nodup := by
  unfold renameMaxNewTokens
  by_cases hc : dictContains d "max_new_tokens"
  · simp only [hc, if_true, dictPop]
    exact dictKeys_nodup_insert _ _ _ (dictKeys_nodup_erase d "max_new_tokens" hnd)
  · simpa [hc] using hnd

theorem condErase_lookup_ne (d : Dict) (k k' : String) (h : k' ≠ k) :
    dictLookup (condErase d k') k = dictLookup d k := by
  unfold condErase
  by_cases hc : dictContains d k' = true
  · rw [if_pos hc]
    exact dictLookup_erase_ne d k k' h
  · rw [if_neg hc]

theorem condErase_keys_nodup (d : Dict) (k : String)
    (hnd : (dictKeys d).Nodup) : (dictKeys (condErase d k)).Nodup := by
  unfold condErase
  by_cases hc : dictContains d k = true
  · rw [if_pos hc]
    exact dictKeys_nodup_erase d k hnd
  · rwa [if_neg hc]

theorem dropUnsupported_lookup_ne (d : Dict) (k : String)
    (h1 : k ≠ "min_new_tokens") (h2 : k ≠ "decoding_method")
    (h3 : k ≠ "random_seed") :
    dictLookup (dropUnsupported d) k = dictLookup d k := by
  unfold dropUnsupported
  simp only [dictPop]
  rw [dictLookup_erase_ne _ _ _ (Ne.symm h3),
    condErase_lookup_ne _ _ _ (Ne.symm h2), condErase_lookup_ne _ _ _ (Ne.symm h1)]

theorem modify_eq_of_normalize_ok (bk g : Dict) (u : PyVal) (k1 : Dict)
    (h : normalizeStop (dictMerge bk g) = .ok (u, k1)) :
    modify_gen_kwargs bk (.dict g) =
      .ok (dropUnsupported (renameMaxNewTokens (dictInsert k1 "stop" u))) := by
  simp only [modify_gen_kwargs]
  rw [h]

theorem modify_eq_of_normalize_error (bk g : Dict) (e : PyErr)
    (h : normalizeStop (dictMerge bk g) = .error e) :
    modify_gen_kwargs bk (.dict g) = .error e := by
  simp only [modify_gen_kwargs]
  rw [h]

theorem modify_ok_inv (bk g : Dict) (r : Dict)
    (h : modify_gen_kwargs bk (.dict g) = .ok r) :
    ∃ u k1, normalizeStop (dictMerge bk g) = .ok (u, k1) ∧
      r = dropUnsupported (renameMaxNewTokens (dictInsert k1 "stop" u)) := by
  simp only [modify_gen_kwargs] at h
  rcases hn : normalizeStop (dictMerge bk g) with e | ⟨u, k1⟩
  · rw [hn] at h
    cases h
  · rw [hn] at h
    cases h
    exact ⟨u, k1, rfl, rfl⟩

theorem modifyDict_eq_of_normalize_ok (bk g : Dict) (u : PyVal) (k1 : Dict)
    (h : normalizeStop (dictMerge bk g) = .ok (u, k1)) :
    modifyDict bk (.dict g) =
      dropUnsupported (renameMaxNewTokens (dictInsert k1 "stop" u)) := by
  unfold modifyDict
  rw [modify_eq_of_normalize_ok bk g u k1 h]

theorem modifyDict_lookup_stop (bk g : Dict) (u : PyVal) (k1 : Dict)
    (h : normalizeStop (dictMerge bk g) = .ok (u, k1)) :
    modifyOk bk (.dict g) = true ∧
      dictLookup (modifyDict bk (.dict g)) "stop" = some u := by
  constructor
  · unfold modifyOk exceptOk
    rw [modify_eq_of_normalize_ok bk g u k1 h]
  · rw [modifyDict_eq_of_normalize_ok bk g u k1 h]
    rw [dropUnsupported_lookup_ne _ _ (by decide) (by decide) (by decide)]
    rw [renameMaxNewTokens_lookup_ne _ _ (by decide) (by decide)]
    exact dictLookup_insert_self k1 "stop" u

/-! ### Claim theorems about `modify_gen_kwargs` -/

/-- **C5**: for every dict `gen_kwargs` containing a `stop_sequences`
option, `modify_gen_kwargs` normalizes it before it is sent to the
backend: a string value `s` becomes the one-element list `[s]` under the
backend key `"stop"`, a list value is passed through unchanged, and any
other value type fails with a `ValueError` (the spec's
`InvalidArgument`). -/
theorem modify_gen_kwargs_stop_normalization (bk g : Dict) (v : PyVal)
    (hv : dictLookup g "stop_sequences" = some v) :
    (∀ s, v = .str s →
      modifyOk bk (.dict g) = true ∧
      dictLookup (modifyDict bk (.dict g)) "stop" = some (.list [.str s])) ∧
    (∀ l, v = .list l →
      modifyOk bk (.dict g) = true ∧
      dictLookup (modifyDict bk (.dict g)) "stop" = some (.list l)) ∧
    ((∀ s, v ≠ .str s) → (∀ l, v ≠ .list l) →
      modify_gen_kwargs bk (.dict g) = .error (.valueError
        ("Expected kwargs stop_sequences to be of type Union[str,list] but got "
          ++ pyStr v))) := by
  have hm : dictLookup (dictMerge bk g) "stop_sequences" = some v :=
    dictMerge_lookup_right bk g _ v hv
  refine ⟨?_, ?_, ?_⟩
  · intro s hs
    subst hs
    exact modifyDict_lookup_stop bk g _ _ (normalizeStop_of_str _ s hm)
  · intro l hl
    subst hl
    exact modifyDict_lookup_stop bk g _ _ (normalizeStop_of_list _ l hm)
  · intro hs hl
    exact modify_eq_of_normalize_error bk g _ (normalizeStop_of_other _ v hm hs hl)

/-- Witness for **C5** at a concrete input: `stop_sequences = "STOP"`
becomes `stop = ["STOP"]`. -/
theorem modify_gen_kwargs_stop_normalization_witness :
    modifyOk [] (.dict [("stop_sequences", PyVal.str "STOP")]) = true ∧
    dictLookup (modifyDict [] (.dict [("stop_sequences", PyVal.str "STOP")])) "stop" =
      some (.list [.str "STOP"]) :=
  (modify_gen_kwargs_stop_normalization [] [("stop_sequences", PyVal.str "STOP")]
    (PyVal.str "STOP") rfl).1 "STOP" rfl

/-- **C6**: for every dict `gen_kwargs` containing `max_new_tokens`
(with any value, in particular `50`), the dict returned by
`modify_gen_kwargs` maps the backend key `max_tokens` to that value and
no longer contains `max_new_tokens`. -/
theorem modify_gen_kwargs_max_new_tokens (bk g r : Dict) (v : PyVal)
    (hbk : (dictKeys bk).Nodup) (hg : (dictKeys g).Nodup)
    (hmv : dictLookup g "max_new_tokens" = some v)
    (hok : modify_gen_kwargs bk (.dict g) = .ok r) :
    dictLookup r "max_tokens" = some v ∧
    dictLookup r "max_new_tokens" = Option.none := by
  obtain ⟨u, k1, hn, hr⟩ := modify_ok_inv bk g r hok
  have hk1 : dictLookup k1 "max_new_tokens" = some v := by
    rw [normalizeStop_lookup_ne (dictMerge bk g) u k1 "max_new_tokens" hn (by decide)]
    exact dictMerge_lookup_right bk g _ v hmv
  have hd2 : dictLookup (dictInsert k1 "stop" u) "max_new_tokens" = some v := by
    rw [dictLookup_insert_ne _ _ _ _ (by decide)]
    exact hk1
  have hnd2 : (dictKeys (dictInsert k1 "stop" u)).Nodup :=
    dictKeys_nodup_insert _ _ _
      (normalizeStop_keys_nodup _ u k1 hn (dictKeys_merge_nodup bk g hbk hg))
  subst hr
  constructor
  · rw [dropUnsupported_lookup_ne _ _ (by decide) (by decide) (by decide)]
    exact renameMaxNewTokens_lookup_maxTokens _ v hd2
  · rw [dropUnsupported_lookup_ne _ _ (by decide) (by decide) (by decide)]
    exact renameMaxNewTokens_lookup_mnt_none _ hnd2

/-- Witness for **C6** at the claim's concrete input
`max_new_tokens = 50`. -/
theorem modify_gen_kwargs_max_new_tokens_witness :
    dictLookup [("stop", PyVal.none), ("max_tokens", PyVal.int 50)] "max_tokens" =
      some (.int 50) ∧
    dictLookup [("stop", PyVal.none), ("max_tokens", PyVal.int 50)] "max_new_tokens" =
      Option.none :=
  modify_gen_kwargs_max_new_tokens [] [("max_new_tokens", PyVal.int 50)]
    [("stop", PyVal.none), ("max_tokens", PyVal.int 50)] (PyVal.int 50)
    (by decide) (by decide) rfl rfl

/-- Counterexample for **C7** as stated: `gen_kwargs = {"random_seed": 1}`
(with empty defaults) is accepted, but the returned mapping is
`{"stop": None}`, which does not map the present key `random_seed` to its
`gen_kwargs` value. -/
theorem modify_gen_kwargs_merge_counterexample :
    modify_gen_kwargs [] (.dict [("random_seed", PyVal.int 1)]) =
      .ok [("stop", PyVal.none)] ∧
    dictLookup (modifyDict [] (.dict [("random_seed", PyVal.int 1)])) "random_seed" ≠
      some (.int 1) :=
  ⟨rfl, fun h => Option.noConfusion h⟩

/-- **C7 (amended)**: for every key *outside the translated/stripped set*
(`stop_sequences`, `stop`, `max_new_tokens`, `max_tokens`,
`min_new_tokens`, `decoding_method`, `random_seed`), the mapping returned
by `modify_gen_kwargs` maps the key to its `gen_kwargs` value when
present there (chunk kwargs override defaults) and to its default value
when present only in the defaults. -/
theorem modify_gen_kwargs_merge_untranslated (bk g r : Dict) (k : String)
    (hok : modify_gen_kwargs bk (.dict g) = .ok r) (hk : k ∉ translatedKeys) :
    (∀ v, dictLookup g k = some v → dictLookup r k = some v) ∧
    (dictLookup g k = Option.none → dictLookup r k = dictLookup bk k) := by
  obtain ⟨u, k1, hn, hr⟩ := modify_ok_inv bk g r hok
  have hne : ∀ s, s ∈ translatedKeys → k ≠ s := fun s hs h => hk (h ▸ hs)
  have hpres : dictLookup r k = dictLookup (dictMerge bk g) k := by
    subst hr
    rw [dropUnsupported_lookup_ne _ _ (hne _ (by decide)) (hne _ (by decide))
        (hne _ (by decide))]
    rw [renameMaxNewTokens_lookup_ne _ _ (hne _ (by decide)) (hne _ (by decide))]
    rw [dictLookup_insert_ne _ _ _ _ (Ne.symm (hne _ (by decide)))]
    exact normalizeStop_lookup_ne (dictMerge bk g) u k1 k hn (hne _ (by decide))
  constructor
  · intro v hv
    rw [hpres]
    exact dictMerge_lookup_right bk g k v hv
  · intro hnone
    rw [hpres]
    exact dictMerge_lookup_left bk g k hnone

/-- Witness for **C7 (amended)**: key `top_p` is passed through from the
chunk kwargs. -/
theorem modify_gen_kwargs_merge_untranslated_witness :
    dictLookup [("temperature", PyVal.int 1), ("top_p", PyVal.int 2), ("stop", PyVal.none)]
      "top_p" = some (.int 2) :=
  (modify_gen_kwargs_merge_untranslated [("temperature", PyVal.int 1)]
    [("top_p", PyVal.int 2)]
    [("temperature", PyVal.int 1), ("top_p", PyVal.int 2), ("stop", PyVal.none)]
    "top_p" rfl (by decide)).1 (PyVal.int 2) rfl

/-- **C4**: a non-dict `gen_kwargs` makes `modify_gen_kwargs` fail with a
`ValueError` (the spec's `InvalidArgument`), and inside `generate_batch`
the chunk then fails with that same error before any backend call: for
*every* backend function the chunk's outcome is this error with the
result state untouched (no partial dispatch). -/
theorem modify_gen_kwargs_nondict_fails_before_backend
    (cfg : LMConfig) (backend : Dict → Except PyErr (List PyVal))
    (upd : Option PyVal → PyVal → PyVal) (reqs : List Instance) (st : GenState)
    (i0 : Nat) (rest : List Nat)
    (hin : exceptOk (getInputs cfg.chat reqs (i0 :: rest)) = true)
    (hnd : ∀ d, (instAt reqs i0).kwargs ≠ .dict d) :
    modify_gen_kwargs cfg.baseKwargs (instAt reqs i0).kwargs =
      .error (.valueError
        ("Expected repr(kwargs) to be of type repr(dict) but got "
          ++ pyStr (instAt reqs i0).kwargs)) ∧
    processChunk cfg backend upd reqs st (i0 :: rest) =
      .err (.valueError
        ("Expected repr(kwargs) to be of type repr(dict) but got "
          ++ pyStr (instAt reqs i0).kwargs)) st := by
  have hmod : modify_gen_kwargs cfg.baseKwargs (instAt reqs i0).kwargs =
      .error (.valueError
        ("Expected repr(kwargs) to be of type repr(dict) but got "
          ++ pyStr (instAt reqs i0).kwargs)) := by
    rcases hkw : (instAt reqs i0).kwargs with s | n | _ | l | d
    · rfl
    · rfl
    · rfl
    · rfl
    · exact absurd hkw (hnd d)
  refine ⟨hmod, ?_⟩
  rcases hgi : getInputs cfg.chat reqs (i0 :: rest) with e | inputs
  · rw [hgi] at hin
    simp [exceptOk] at hin
  · simp only [processChunk, hgi, hmod]

/-- Witness for **C4**: a single-instance chunk whose kwargs is the
integer `7`. -/
theorem modify_gen_kwargs_nondict_fails_before_backend_witness :
    modify_gen_kwargs []
        (instAt [Instance.mk [PyVal.str "p"] (PyVal.int 7)] 0).kwargs =
      .error (.valueError
        ("Expected repr(kwargs) to be of type repr(dict) but got "
          ++ pyStr (instAt [Instance.mk [PyVal.str "p"] (PyVal.int 7)] 0).kwargs)) ∧
    processChunk ⟨false, [], PyVal.str "m", 1⟩ (fun _ => .ok []) (fun _ s => s)
        [Instance.mk [PyVal.str "p"] (PyVal.int 7)] initState [0] =
      .err (.valueError
        ("Expected repr(kwargs) to be of type repr(dict) but got "
          ++ pyStr (instAt [Instance.mk [PyVal.str "p"] (PyVal.int 7)] 0).kwargs))
        initState :=
  modify_gen_kwargs_nondict_fails_before_backend
    ⟨false, [], PyVal.str "m", 1⟩ (fun _ => .ok []) (fun _ s => s)
    [Instance.mk [PyVal.str "p"] (PyVal.int 7)] initState 0 [] rfl
    (fun _ h => PyVal.noConfusion h)

/-! ### Model resolution, unsupported operation, retry, deep copy -/

/-- **C8**: for every chunk payload, the model identifier passed to the
backend (`model_id = kwargs.pop("model_id_or_path", self.model_id_or_path)`,
openai.py line 133) is the `model_id_or_path` option of the chunk's
(merged and translated) kwargs when present — and that key is then absent
from the payload — and the dispatcher-wide default `self.model_id_or_path`
otherwise. -/
theorem mkPayload_model_resolution (chat : Bool) (selfModelId : PyVal)
    (kw : Dict) (inputs : List PyVal) (hnd : (dictKeys kw).Nodup) :
    (∀ m, dictLookup kw "model_id_or_path" = some m →
      dictLookup (mkPayload chat selfModelId kw inputs).1 "model" = some m ∧
      dictLookup (mkPayload chat selfModelId kw inputs).1 "model_id_or_path" =
        Option.none) ∧
    (dictLookup kw "model_id_or_path" = Option.none →
      dictLookup (mkPayload chat selfModelId kw inputs).1 "model" = some selfModelId) := by
  have hpk : (if chat then "messages" else "prompt") ≠ "model_id_or_path" := by
    cases chat <;> decide
  have hnd1 : (dictKeys (dictInsert kw (if chat then "messages" else "prompt")
      (.list inputs))).Nodup := dictKeys_nodup_insert _ _ _ hnd
  constructor
  · intro m hm
    have hl1 : dictLookup (dictInsert kw (if chat then "messages" else "prompt")
        (.list inputs)) "model_id_or_path" = some m := by
      rw [dictLookup_insert_ne _ _ _ _ hpk]
      exact hm
    constructor
    · simp only [mkPayload, dictPop, hl1]
      simp [dictLookup_insert_self]
    · simp only [mkPayload, dictPop, hl1]
      rw [dictLookup_insert_ne _ _ _ _ (by decide)]
      exact dictLookup_erase_self _ _ hnd1
  · intro hm
    have hl1 : dictLookup (dictInsert kw (if chat then "messages" else "prompt")
        (.list inputs)) "model_id_or_path" = Option.none := by
      rw [dictLookup_insert_ne _ _ _ _ hpk]
      exact hm
    simp only [mkPayload, dictPop, hl1]
    simp [dictLookup_insert_self]

/-- Witness for **C8**: a chunk kwargs carrying a `model_id_or_path`
override, and one without. -/
theorem mkPayload_model_resolution_witness :
    (dictLookup (mkPayload false (PyVal.str "default-model")
        [("model_id_or_path", PyVal.str "override")] [PyVal.str "p"]).1 "model" =
      some (.str "override") ∧
     dictLookup (mkPayload false (PyVal.str "default-model")
        [("model_id_or_path", PyVal.str "override")] [PyVal.str "p"]).1
       "model_id_or_path" = Option.none) ∧
    dictLookup (mkPayload false (PyVal.str "default-model") [] [PyVal.str "p"]).1
      "model" = some (.str "default-model") :=
  ⟨(mkPayload_model_resolution false (PyVal.str "default-model")
      [("model_id_or_path", PyVal.str "override")] [PyVal.str "p"] (by decide)).1
      (PyVal.str "override") rfl,
   (mkPayload_model_resolution false (PyVal.str "default-model")
      [] [PyVal.str "p"] (by decide)).2 rfl⟩

/-- **C9**: for every argument list (and every backend client),
`loglikelihood_batch` of the generation-only backends raises
`NotImplementedError` (the spec's `UnsupportedOperation`) and its outcome
does not depend on the client — no backend call is made. -/
theorem loglikelihood_batch_unsupported :
    ∀ (client : Dict → Except PyErr (List PyVal)) (args : List PyVal) (kwargs : Dict),
      loglikelihood_batch client args kwargs =
        .error (.notImplementedError "No support for logits.") ∧
      ∀ (client' : Dict → Except PyErr (List PyVal)),
        loglikelihood_batch client args kwargs =
          loglikelihood_batch client' args kwargs :=
  fun _ _ _ => ⟨rfl, fun _ => rfl⟩

/-- **C3**: if the wrapped callable raises an exception that is not an
`openai.OpenAIError` (the only retryable kind configured by
`oa_completion`), the wrapped call raises that exception immediately:
zero backoff sleeps and zero invocations of the on-exception callback. -/
theorem oa_completion_nonretryable_immediate {α : Type}
    (completionCall : Nat → Except PyErr α) (e : PyErr) (fuel : Nat)
    (h : completionCall 0 = .error e) (hne : isOpenAIError e = false) :
    oa_completion completionCall (fuel + 1) = (.error e, 0, 0) := by
  unfold oa_completion retryLoop
  rw [h]
  simp [hne]

/-- Witness for **C3**: a callable that always raises `ValueError`
propagates it from the first attempt. -/
theorem oa_completion_nonretryable_immediate_witness :
    oa_completion (fun _ => (.error (.valueError "bad request") : Except PyErr PyVal)) 1 =
      (.error (.valueError "bad request"), 0, 0) :=
  oa_completion_nonretryable_immediate
    (fun _ => (.error (.valueError "bad request") : Except PyErr PyVal))
    (.valueError "bad request") 0 rfl rfl

/-- **C10**: `modify_gen_kwargs` operates on a deep copy of its argument
(openai.py line 157): in the heap model, after the call — whether it
returns or raises — the cell holding the caller's `gen_kwargs` (an
Instance's kwargs mapping) is unchanged; only the freshly allocated copy
is mutated. -/
theorem modify_gen_kwargs_heap_preserves_argument (bk : Dict)
    (heap : List PyVal) (r : Nat) (hr : r < heap.length) :
    ((modify_gen_kwargs_heap bk heap r).2).getD r PyVal.none =
      heap.getD r PyVal.none := by
  unfold modify_gen_kwargs_heap
  rcases hm : modify_gen_kwargs bk (heap.getD r PyVal.none) with e | d
  · simp only [hm]
    rw [List.getD_eq_getElem?_getD, List.getElem?_append_left hr,
      ← List.getD_eq_getElem?_getD]
  · simp only [hm]
    have hrne : heap.length ≠ r := Ne.symm (Nat.ne_of_lt hr)
    rw [List.getD_eq_getElem?_getD, List.getElem?_set_ne hrne,
      List.getElem?_append_left hr, ← List.getD_eq_getElem?_getD]

/-- Witness for **C10**: a one-cell heap holding a dict. -/
theorem modify_gen_kwargs_heap_preserves_argument_witness :
    0 < [PyVal.dict [("a", PyVal.int 1)]].length ∧
    ((modify_gen_kwargs_heap [] [PyVal.dict [("a", PyVal.int 1)]] 0).2).getD 0
        PyVal.none =
      [PyVal.dict [("a", PyVal.int 1)]].getD 0 PyVal.none :=
  ⟨by decide,
   modify_gen_kwargs_heap_preserves_argument [] [PyVal.dict [("a", PyVal.int 1)]] 0
     (by decide)⟩

/-! ### Lemmas about grouping, chunking and result scatter -/

theorem if_eq_swap {α : Type} [DecidableEq α] (a x : α) :
    (if x = a then (1 : Nat) else 0) = if a = x then 1 else 0 := by
  by_cases h : a = x
  · simp [h]
  · simp [h, Ne.symm h]

theorem scatterResults_writes (upd : Option PyVal → PyVal → PyVal) (u : Option PyVal) :
    ∀ (pairs : List (PyVal × Nat)) (st : GenState) (i : Nat),
    (scatterResults upd u st pairs).writes i =
      st.writes i + (pairs.map Prod.snd).count i
| [], st, i => by simp [scatterResults]
| (resp, j) :: rest, st, i => by
    simp only [scatterResults]
    rw [scatterResults_writes upd u rest (writeResult st j (upd u resp)) i]
    simp only [writeResult, List.map_cons, List.count_cons]
    by_cases hij : i = j
    · subst hij
      simp
      omega
    · simp [hij, Ne.symm hij]

theorem scatterResults_results_not_mem (upd : Option PyVal → PyVal → PyVal)
    (u : Option PyVal) :
    ∀ (pairs : List (PyVal × Nat)) (st : GenState) (i : Nat),
    i ∉ pairs.map Prod.snd →
    (scatterResults upd u st pairs).results i = st.results i
| [], _, _, _ => rfl
| (resp, j) :: rest, st, i, h => by
    simp only [List.map_cons, List.mem_cons] at h
    push_neg at h
    simp only [scatterResults]
    rw [scatterResults_results_not_mem upd u rest _ i h.2]
    simp [writeResult, h.1]

theorem scatterResults_results_mem (upd : Option PyVal → PyVal → PyVal)
    (u : Option PyVal) :
    ∀ (pairs : List (PyVal × Nat)) (st : GenState) (i : Nat),
    i ∈ pairs.map Prod.snd →
    ((scatterResults upd u st pairs).results i).isSome = true
| [], _, i, h => by simp at h
| (resp, j) :: rest, st, i, h => by
    simp only [scatterResults]
    by_cases hr : i ∈ rest.map Prod.snd
    · exact scatterResults_results_mem upd u rest _ i hr
    · have hij : i = j := by
        simp only [List.map_cons, List.mem_cons] at h
        tauto
      rw [scatterResults_results_not_mem upd u rest _ i hr]
      subst hij
      simp [writeResult]

theorem zip_map_snd {α β : Type} :
    ∀ (l1 : List α) (l2 : List β), l1.length = l2.length →
    (l1.zip l2).map Prod.snd = l2
| [], [], _ => rfl
| [], _ :: _, h => by simp at h
| _ :: _, [], h => by simp at h
| a :: as, b :: bs, h => by
    simp only [List.zip_cons_cons, List.map_cons]
    rw [zip_map_snd as bs (by simpa using h)]

theorem getInputs_length (chat : Bool) (reqs : List Instance) :
    ∀ (c : List Nat) (inputs : List PyVal),
    getInputs chat reqs c = .ok inputs → inputs.length = c.length
| [], inputs, h => by
    simp only [getInputs] at h
    cases h
    rfl
| i :: rest, inputs, h => by
    simp only [getInputs] at h
    rcases ha : (instAt reqs i).args with _ | ⟨a, as⟩
    · rw [ha] at h
      cases h
    · rw [ha] at h
      rcases hg : getInputs chat reqs rest with e | l
      · rw [hg] at h
        cases h
      · rw [hg] at h
        cases h
        simp [getInputs_length chat reqs rest l hg]

theorem payloadPromptLen_mkPayload (chat : Bool) (mid : PyVal) (kw : Dict)
    (inputs : List PyVal) :
    payloadPromptLen chat (mkPayload chat mid kw inputs).1 = inputs.length := by
  have h1 : dictLookup (mkPayload chat mid kw inputs).1
      (if chat then "messages" else "prompt") = some (.list inputs) := by
    simp only [mkPayload, dictPop]
    rw [dictLookup_insert_ne _ _ _ _ (by cases chat <;> decide)]
    rw [dictLookup_erase_ne _ _ _ (by cases chat <;> decide)]
    exact dictLookup_insert_self _ _ _
  simp only [payloadPromptLen, h1]

theorem chunksOfFuel_flatten {α : Type} (n : Nat) :
    ∀ (fuel : Nat) (xs : List α), xs.length ≤ fuel →
    (chunksOfFuel n fuel xs).flatten = xs
| fuel, [], _ => by cases fuel <;> simp [chunksOfFuel]
| 0, x :: xs, h => by simp at h
| fuel + 1, x :: xs, h => by
    simp only [chunksOfFuel, List.flatten_cons]
    rw [chunksOfFuel_flatten n fuel (xs.drop (n - 1)) (by
      simp only [List.length_drop]
      simp only [List.length_cons] at h
      omega)]
    simp [List.take_append_drop]

theorem chunksOf_flatten {α : Type} (n : Nat) (xs : List α) :
    (chunksOf n xs).flatten = xs :=
  chunksOfFuel_flatten n xs.length xs (Nat.le_refl _)

theorem insertGrouped_flat_count {α : Type} [DecidableEq α]
    (acc : List (String × List α)) (k : String) (x a : α) :
    ((insertGrouped acc k x).flatMap Prod.snd).count a =
      (acc.flatMap Prod.snd).count a + (if a = x then 1 else 0) := by
  induction acc with
  | nil => simp [insertGrouped, List.count_cons, if_eq_swap]
  | cons kv rest ih =>
      obtain ⟨k', ys⟩ := kv
      by_cases hk : k' = k
      · simp only [insertGrouped, if_pos hk, List.flatMap_cons, List.count_append,
          List.count_cons]
        simp [List.count_append, List.count_cons, if_eq_swap]
        omega
      · simp only [insertGrouped, if_neg hk, List.flatMap_cons, List.count_append, ih]
        omega

theorem getGrouped_foldl_count {α : Type} [DecidableEq α] (key : α → String) (a : α) :
    ∀ (xs : List α) (acc : List (String × List α)),
    ((xs.foldl (fun acc x => insertGrouped acc (key x) x) acc).flatMap Prod.snd).count a =
      (acc.flatMap Prod.snd).count a + xs.count a
| [], acc => by simp
| x :: xs, acc => by
    simp only [List.foldl_cons]
    rw [getGrouped_foldl_count key a xs (insertGrouped acc (key x) x)]
    rw [insertGrouped_flat_count]
    simp [List.count_cons, if_eq_swap]
    omega

theorem getGrouped_count {α : Type} [DecidableEq α] (key : α → String)
    (xs : List α) (a : α) :
    ((getGrouped key xs).flatMap Prod.snd).count a = xs.count a := by
  unfold getGrouped
  rw [getGrouped_foldl_count]
  simp

theorem flatMap_chunksOf_flatten_count (bs : Nat) :
    ∀ (gs : List (String × List Nat)) (i : Nat),
    ((gs.flatMap (fun g => chunksOf bs g.2)).flatten).count i =
      (gs.flatMap Prod.snd).count i
| [], _ => rfl
| (k, g) :: gs, i => by
    simp only [List.flatMap_cons, List.flatten_append, List.count_append]
    rw [chunksOf_flatten bs g, flatMap_chunksOf_flatten_count bs gs i]

theorem allChunks_count (bs : Nat) (reqs : List Instance) (i : Nat)
    (hi : i < reqs.length) :
    (allChunks bs reqs).flatten.count i = 1 := by
  unfold allChunks groupedIdxs
  rw [flatMap_chunksOf_flatten_count]
  rw [getGrouped_count]
  exact List.count_eq_one_of_mem (List.nodup_range _) (List.mem_range.2 hi)

/-! ### Lemmas about chunk processing -/

theorem processChunk_err_frame (cfg : LMConfig)
    (backend : Dict → Except PyErr (List PyVal))
    (upd : Option PyVal → PyVal → PyVal) (reqs : List Instance)
    (st : GenState) (c : List Nat) (e : PyErr) (st' : GenState)
    (h : processChunk cfg backend upd reqs st c = .err e st') : st' = st := by
  rcases c with _ | ⟨i0, rest⟩
  · simp only [processChunk, getInputs] at h
    cases h
    rfl
  · rcases hgi : getInputs cfg.chat reqs (i0 :: rest) with e1 | inputs
    · simp only [processChunk, hgi] at h
      cases h
      rfl
    · rcases hm : modify_gen_kwargs cfg.baseKwargs (instAt reqs i0).kwargs with e2 | kw
      · simp only [processChunk, hgi, hm] at h
        cases h
        rfl
      · rcases hb : backend (mkPayload cfg.chat cfg.modelIdOrPath kw inputs).1
            with e3 | choices
        · simp only [processChunk, hgi, hm, hb] at h
          cases h
          rfl
        · simp only [processChunk, hgi, hm, hb] at h
          cases h

theorem processChunk_ok_spec (cfg : LMConfig)
    (backend : Dict → Except PyErr (List PyVal))
    (upd : Option PyVal → PyVal → PyVal) (reqs : List Instance)
    (st : GenState) (c : List Nat) (st' : GenState)
    (hpar : ∀ p l, backend p = .ok l → l.length = payloadPromptLen cfg.chat p)
    (hok : processChunk cfg backend upd reqs st c = .ok st') :
    (∀ i, st'.writes i = st.writes i + c.count i) ∧
    (∀ i, i ∉ c → st'.results i = st.results i) ∧
    (∀ i, i ∈ c → (st'.results i).isSome = true) := by
  rcases c with _ | ⟨i0, rest⟩
  · simp only [processChunk, getInputs] at hok
    cases hok
  · rcases hgi : getInputs cfg.chat reqs (i0 :: rest) with e1 | inputs
    · simp only [processChunk, hgi] at hok
      cases hok
    · rcases hm : modify_gen_kwargs cfg.baseKwargs (instAt reqs i0).kwargs with e2 | kw
      · simp only [processChunk, hgi, hm] at hok
        cases hok
      · rcases hb : backend (mkPayload cfg.chat cfg.modelIdOrPath kw inputs).1
            with e3 | choices
        · simp only [processChunk, hgi, hm, hb] at hok
          cases hok
        · simp only [processChunk, hgi, hm, hb] at hok
          cases hok
          have hlen : choices.length = (i0 :: rest).length := by
            rw [hpar _ _ hb, payloadPromptLen_mkPayload]
            exact getInputs_length cfg.chat reqs _ _ hgi
          have hsnd : (choices.zip (i0 :: rest)).map Prod.snd = i0 :: rest :=
            zip_map_snd _ _ hlen
          refine ⟨?_, ?_, ?_⟩
          · intro i
            rw [scatterResults_writes, hsnd]
          · intro i hi
            rw [scatterResults_results_not_mem]
            rw [hsnd]
            exact hi
          · intro i hi
            apply scatterResults_results_mem
            rw [hsnd]
            exact hi

theorem processChunks_append_ok (cfg : LMConfig)
    (backend : Dict → Except PyErr (List PyVal))
    (upd : Option PyVal → PyVal → PyVal) (reqs : List Instance)
    (bs : List (List Nat)) :
    ∀ (as : List (List Nat)) (st st1 : GenState),
    processChunks cfg backend upd reqs st as = .ok st1 →
    processChunks cfg backend upd reqs st (as ++ bs) =
      processChunks cfg backend upd reqs st1 bs
| [], st, st1, h => by
    simp only [processChunks] at h
    cases h
    rfl
| c :: as, st, st1, h => by
    rcases hc : processChunk cfg backend upd reqs st c with st2 | ⟨e2, st2⟩
    · simp only [processChunks, hc] at h
      simp only [List.cons_append, processChunks, hc]
      exact processChunks_append_ok cfg backend upd reqs bs as st2 st1 h
    · simp only [processChunks, hc] at h
      cases h

theorem processChunks_append_err (cfg : LMConfig)
    (backend : Dict → Except PyErr (List PyVal))
    (upd : Option PyVal → PyVal → PyVal) (reqs : List Instance)
    (bs : List (List Nat)) :
    ∀ (as : List (List Nat)) (st : GenState) (e : PyErr) (st1 : GenState),
    processChunks cfg backend upd reqs st as = .err e st1 →
    processChunks cfg backend upd reqs st (as ++ bs) = .err e st1
| [], st, e, st1, h => by
    simp only [processChunks] at h
    cases h
| c :: as, st, e, st1, h => by
    rcases hc : processChunk cfg backend upd reqs st c with st2 | ⟨e2, st2⟩
    · simp only [processChunks, hc] at h
      simp only [List.cons_append, processChunks, hc]
      exact processChunks_append_err cfg backend upd reqs bs as st2 e st1 h
    · simp only [processChunks, hc] at h
      cases h
      simp only [List.cons_append, processChunks, hc]

theorem processGroups_eq_processChunks (cfg : LMConfig)
    (backend : Dict → Except PyErr (List PyVal))
    (upd : Option PyVal → PyVal → PyVal) (reqs : List Instance) :
    ∀ (gs : List (String × List Nat)) (st : GenState),
    processGroups cfg backend upd reqs st gs =
      processChunks cfg backend upd reqs st
        (gs.flatMap (fun g => chunksOf cfg.batchSize g.2))
| [], st => rfl
| (k, g) :: gs, st => by
    rcases hg : processChunks cfg backend upd reqs st (chunksOf cfg.batchSize g)
        with st1 | ⟨e1, st1⟩
    · simp only [processGroups, List.flatMap_cons, hg]
      rw [processChunks_append_ok cfg backend upd reqs _ _ st st1 hg]
      exact processGroups_eq_processChunks cfg backend upd reqs gs st1
    · simp only [processGroups, List.flatMap_cons, hg]
      rw [processChunks_append_err cfg backend upd reqs _ _ st e1 st1 hg]

theorem generate_batch_eq_processChunks (cfg : LMConfig)
    (backend : Dict → Except PyErr (List PyVal))
    (upd : Option PyVal → PyVal → PyVal) (reqs : List Instance) :
    generate_batch cfg backend upd reqs =
      processChunks cfg backend upd reqs initState (allChunks cfg.batchSize reqs) := by
  unfold generate_batch allChunks
  exact processGroups_eq_processChunks cfg backend upd reqs (groupedIdxs reqs) initState

theorem processChunks_ok_writes (cfg : LMConfig)
    (backend : Dict → Except PyErr (List PyVal))
    (upd : Option PyVal → PyVal → PyVal) (reqs : List Instance)
    (hpar : ∀ p l, backend p = .ok l → l.length = payloadPromptLen cfg.chat p) :
    ∀ (cs : List (List Nat)) (st st' : GenState),
    processChunks cfg backend upd reqs st cs = .ok st' →
    ∀ i, st'.writes i = st.writes i + cs.flatten.count i
| [], st, st', h => by
    simp only [processChunks] at h
    cases h
    simp
| c :: cs, st, st', h => by
    rcases hc : processChunk cfg backend upd reqs st c with st1 | ⟨e1, st1⟩
    · simp only [processChunks, hc] at h
      intro i
      rw [processChunks_ok_writes cfg backend upd reqs hpar cs st1 st' h i]
      rw [(processChunk_ok_spec cfg backend upd reqs st c st1 hpar hc).1 i]
      simp only [List.flatten_cons, List.count_append]
      omega
    · simp only [processChunks, hc] at h
      cases h

theorem processChunks_err_spec (cfg : LMConfig)
    (backend : Dict → Except PyErr (List PyVal))
    (upd : Option PyVal → PyVal → PyVal) (reqs : List Instance)
    (hpar : ∀ p l, backend p = .ok l → l.length = payloadPromptLen cfg.chat p) :
    ∀ (cs : List (List Nat)) (st : GenState) (e : PyErr) (st' : GenState),
    processChunks cfg backend upd reqs st cs = .err e st' →
    ((∀ i, i ∈ (cs.take (completedCount cfg backend upd reqs st cs)).flatten →
        (st'.results i).isSome = true) ∧
     (∀ i, i ∉ (cs.take (completedCount cfg backend upd reqs st cs)).flatten →
        st'.results i = st.results i))
| [], st, e, st', h => by
    simp only [processChunks] at h
    cases h
| c :: cs, st, e, st', h => by
    rcases hc : processChunk cfg backend upd reqs st c with st1 | ⟨e1, st1⟩
    · simp only [processChunks, hc] at h
      have ih := processChunks_err_spec cfg backend upd reqs hpar cs st1 e st' h
      obtain ⟨hw, hnm, hm⟩ := processChunk_ok_spec cfg backend upd reqs st c st1 hpar hc
      have hcc : completedCount cfg backend upd reqs st (c :: cs) =
          completedCount cfg backend upd reqs st1 cs + 1 := by
        simp [completedCount, hc]
      rw [hcc]
      constructor
      · intro i hi
        rw [List.take_succ_cons, List.flatten_cons, List.mem_append] at hi
        rcases hi with hi | hi
        · by_cases hin : i ∈ (cs.take (completedCount cfg backend upd reqs st1 cs)).flatten
          · exact ih.1 i hin
          · rw [ih.2 i hin]
            exact hm i hi
        · exact ih.1 i hi
      · intro i hi
        rw [List.take_succ_cons, List.flatten_cons, List.mem_append] at hi
        push_neg at hi
        rw [ih.2 i hi.2]
        exact hnm i hi.1
    · simp only [processChunks, hc] at h
      cases h
      have hst : st' = st := processChunk_err_frame cfg backend upd reqs st c e st' hc
      subst hst
      have hcc : completedCount cfg backend upd reqs st' (c :: cs) = 0 := by
        simp [completedCount, hc]
      rw [hcc]
      exact ⟨fun i hi => absurd hi (by simp), fun i _ => rfl⟩

/-! ### Claim theorems about `generate_batch` -/

/-- **C1**: under the positional-correspondence assumption on the
backend (one response per request, in request order — `hpar`), whenever
`generate_batch` returns normally each submitted instance was placed in
exactly one chunk of exactly one group (its index occurs exactly once
across all chunks of all groups) and its result slot was written exactly
once by the response/chunk zip.  When the run raises instead,
`generate_batch` returns the `RunResult.err` of that exception by
construction — the error propagates to the caller. -/
theorem generate_batch_each_instance_once (cfg : LMConfig)
    (backend : Dict → Except PyErr (List PyVal))
    (upd : Option PyVal → PyVal → PyVal) (reqs : List Instance)
    (_hbs : 1 ≤ cfg.batchSize)
    (hpar : ∀ p l, backend p = .ok l → l.length = payloadPromptLen cfg.chat p)
    (hok : runIsOk (generate_batch cfg backend upd reqs) = true) :
    ∀ i, i < reqs.length →
      (allChunks cfg.batchSize reqs).flatten.count i = 1 ∧
      runWrites (generate_batch cfg backend upd reqs) i = 1 := by
  intro i hi
  refine ⟨allChunks_count cfg.batchSize reqs i hi, ?_⟩
  rcases hg : generate_batch cfg backend upd reqs with st' | ⟨e, st'⟩
  · have hg1 : processChunks cfg backend upd reqs initState
        (allChunks cfg.batchSize reqs) = .ok st' := by
      rw [← generate_batch_eq_processChunks]
      exact hg
    have hw := processChunks_ok_writes cfg backend upd reqs hpar _ initState st' hg1 i
    simp only [runWrites, runState]
    rw [hw]
    simp only [initState]
    rw [allChunks_count cfg.batchSize reqs i hi]
  · rw [hg] at hok
    simp [runIsOk] at hok

/-- Witness for **C1**: two instances with identical kwargs form one
2-element chunk; instance 0 is counted once and written once. -/
theorem generate_batch_each_instance_once_witness :
    (allChunks 2 [Instance.mk [PyVal.str "a"] (PyVal.dict []),
        Instance.mk [PyVal.str "b"] (PyVal.dict [])]).flatten.count 0 = 1 ∧
    runWrites (generate_batch ⟨false, [], PyVal.str "m", 2⟩
        (fun p => .ok (List.replicate (payloadPromptLen false p) (PyVal.str "out")))
        (fun _ s => s)
        [Instance.mk [PyVal.str "a"] (PyVal.dict []),
         Instance.mk [PyVal.str "b"] (PyVal.dict [])]) 0 = 1 :=
  generate_batch_each_instance_once ⟨false, [], PyVal.str "m", 2⟩
    (fun p => .ok (List.replicate (payloadPromptLen false p) (PyVal.str "out")))
    (fun _ s => s)
    [Instance.mk [PyVal.str "a"] (PyVal.dict []),
     Instance.mk [PyVal.str "b"] (PyVal.dict [])]
    (by decide)
    (fun p l h => by
      cases h
      simp)
    (by rfl) 0 (by decide)

/-- **C2**: if a backend call raises a non-retried error during
`generate_batch`, the results written by previously completed chunks
remain set (no rollback) and instances of all other chunks — the failing
one and every later chunk and group — keep their result slot unset:
the final state sets exactly the instances of the first
`completedCount` chunks. -/
theorem generate_batch_partial_progress (cfg : LMConfig)
    (backend : Dict → Except PyErr (List PyVal))
    (upd : Option PyVal → PyVal → PyVal) (reqs : List Instance)
    (_hbs : 1 ≤ cfg.batchSize)
    (hpar : ∀ p l, backend p = .ok l → l.length = payloadPromptLen cfg.chat p)
    (herr : runIsOk (generate_batch cfg backend upd reqs) = false) :
    ∀ i,
      (i ∈ ((allChunks cfg.batchSize reqs).take
          (completedCount cfg backend upd reqs initState
            (allChunks cfg.batchSize reqs))).flatten →
        (runResults (generate_batch cfg backend upd reqs) i).isSome = true) ∧
      (i ∉ ((allChunks cfg.batchSize reqs).take
          (completedCount cfg backend upd reqs initState
            (allChunks cfg.batchSize reqs))).flatten →
        runResults (generate_batch cfg backend upd reqs) i = Option.none) := by
  rcases hg : generate_batch cfg backend upd reqs with st' | ⟨e, st'⟩
  · rw [hg] at herr
    simp [runIsOk] at herr
  · have hg1 : processChunks cfg backend upd reqs initState
        (allChunks cfg.batchSize reqs) = .err e st' := by
      rw [← generate_batch_eq_processChunks]
      exact hg
    have hspec := processChunks_err_spec cfg backend upd reqs hpar _ initState e st' hg1
    intro i
    constructor
    · intro hmem
      simpa [runResults, runState] using hspec.1 i hmem
    · intro hmem
      have h2 := hspec.2 i hmem
      simpa [runResults, runState, initState] using h2

/-- Witness for **C2**: two one-instance groups; the backend rejects the
second group's payload (it carries a `temperature` option), so instance 0
keeps its written result and instance 1 stays unset. -/
theorem generate_batch_partial_progress_witness :
    (runResults (generate_batch ⟨false, [], PyVal.str "m", 1⟩
        (fun p => if dictContains p "temperature" then .error (.otherError "auth failure")
          else .ok (List.replicate (payloadPromptLen false p) (PyVal.str "out")))
        (fun _ s => s)
        [Instance.mk [PyVal.str "a"] (PyVal.dict []),
         Instance.mk [PyVal.str "b"] (PyVal.dict [("temperature", PyVal.int 1)])]) 0).isSome
      = true ∧
    runResults (generate_batch ⟨false, [], PyVal.str "m", 1⟩
        (fun p => if dictContains p "temperature" then .error (.otherError "auth failure")
          else .ok (List.replicate (payloadPromptLen false p) (PyVal.str "out")))
        (fun _ s => s)
        [Instance.mk [PyVal.str "a"] (PyVal.dict []),
         Instance.mk [PyVal.str "b"] (PyVal.dict [("temperature", PyVal.int 1)])]) 1
      = Option.none :=
  ⟨(generate_batch_partial_progress ⟨false, [], PyVal.str "m", 1⟩
      (fun p => if dictContains p "temperature" then .error (.otherError "auth failure")
        else .ok (List.replicate (payloadPromptLen false p) (PyVal.str "out")))
      (fun _ s => s)
      [Instance.mk [PyVal.str "a"] (PyVal.dict []),
       Instance.mk [PyVal.str "b"] (PyVal.dict [("temperature", PyVal.int 1)])]
      (by decide)
      (fun p l h => by
        dsimp only at h
        by_cases hcp : dictContains p "temperature" = true
        · rw [if_pos hcp] at h
          cases h
        · rw [if_neg hcp] at h
          cases h
          simp)
      (by rfl) 0).1 (by decide),
   (generate_batch_partial_progress ⟨false, [], PyVal.str "m", 1⟩
      (fun p => if dictContains p "temperature" then .error (.otherError "auth failure")
        else .ok (List.replicate (payloadPromptLen false p) (PyVal.str "out")))
      (fun _ s => s)
      [Instance.mk [PyVal.str "a"] (PyVal.dict []),
       Instance.mk [PyVal.str "b"] (PyVal.dict [("temperature", PyVal.int 1)])]
      (by decide)
      (fun p l h => by
        dsimp only at h
        by_cases hcp : dictContains p "temperature" = true
        · rw [if_pos hcp] at h
          cases h
        · rw [if_neg hcp] at h
          cases h
          simp)
      (by rfl) 1).2 (by decide)⟩

end FmsDgt
